import Mathlib

/-!
Verification of the strategy-sim looping simulation engine.

The TypeScript sources use bignumber.js arbitrary-precision decimals for all
engine quantities.  We embed those quantities as exact rationals (`ℚ`):
bignumber.js addition, subtraction and multiplication are exact, and its
division is exact up to a configurable decimal precision which we idealise
away.  JavaScript `Infinity` as a *domain* value (health factor, gross
leverage, liquidation price) is embedded as `⊤ : WithTop ℚ`.  BigNumber's
non-finite propagation semantics (division by zero yielding `Infinity`/`NaN`)
are modelled separately and faithfully by the `XNum` type further below,
which is used for the claims that hinge on that behaviour.
-/

/-! ### Constant-product AMM model (src/models/amm_xyk.ts) -/

/-- Result record of `getConstantProductQuote` (fields in source order). -/
structure AmmSwapQuote where
  amountOut : ℚ
  priceImpactPct : ℚ
  feePaid : ℚ
deriving DecidableEq, Repr

/-- Embedding of `getConstantProductQuote` from `src/models/amm_xyk.ts`.
`throw` sites become `Except.error` with the source message. -/
def getConstantProductQuote (amountIn reserveIn reserveOut feeBps : ℚ) :
    Except String AmmSwapQuote :=
  if amountIn < 0 then .error "amountIn must be non-negative"
  else if reserveIn ≤ 0 ∨ reserveOut ≤ 0 then .error "reserves must be positive"
  else
    let feeFraction := feeBps / 10000
    let amountInAfterFee := amountIn * (1 - feeFraction)
    if amountInAfterFee = 0 then
      .ok ⟨0, 0, amountIn⟩
    else
      let numerator := amountInAfterFee * reserveOut
      let denominator := reserveIn + amountInAfterFee
      let amountOut := numerator / denominator
      let initialPrice := if reserveIn = 0 then 0 else reserveOut / reserveIn
      let finalPrice :=
        if reserveIn + amountInAfterFee = 0 then 0
        else (reserveOut - amountOut) / (reserveIn + amountInAfterFee)
      let priceImpactPct :=
        if initialPrice = 0 then 0
        else (initialPrice - finalPrice) / initialPrice * 100
      let feePaid := amountIn - amountInAfterFee
      .ok ⟨amountOut, priceImpactPct, feePaid⟩

/-! ### Oracle-lag model (src/models/oracle.ts) -/

/-- Oracle lag state: the held price and its last-update timestamp. -/
structure OracleLagState where
  lastPrice : ℚ
  lastUpdateTimestamp : ℚ
deriving DecidableEq, Repr

/-- Return record of `resolveOraclePrice`. -/
structure OracleResolution where
  price : ℚ
  state : OracleLagState
deriving DecidableEq, Repr

/-- Embedding of `resolveOraclePrice` from `src/models/oracle.ts`.
`config` is `some lagSeconds` when an `OracleLagConfig` is passed. -/
def resolveOraclePrice (spotPrice timestamp : ℚ) (config : Option ℚ)
    (state : OracleLagState) : OracleResolution :=
  match config with
  | none => ⟨spotPrice, ⟨spotPrice, timestamp⟩⟩
  | some lagSeconds =>
    if timestamp - state.lastUpdateTimestamp < lagSeconds then
      ⟨state.lastPrice, state⟩
    else
      ⟨spotPrice, ⟨spotPrice, timestamp⟩⟩

/-- State after the calls at timestamps `0, 1, ..., n-1` (spot price at call
`t` given by `spots t`), threading the returned state into the next call. -/
def oracleStateAfter (spots : ℕ → ℚ) (lag : ℚ) (st0 : OracleLagState) :
    ℕ → OracleLagState
  | 0 => st0
  | n + 1 =>
    (resolveOraclePrice (spots n) (n : ℚ) (some lag)
      (oracleStateAfter spots lag st0 n)).state

/-- Price returned by the call at timestamp `n` in the threaded sequence. -/
def oraclePriceAt (spots : ℕ → ℚ) (lag : ℚ) (st0 : OracleLagState) (n : ℕ) : ℚ :=
  (resolveOraclePrice (spots n) (n : ℚ) (some lag)
    (oracleStateAfter spots lag st0 n)).price

/-! ### Statement helpers -/

/-- Whether an `Except` computation succeeded. -/
def exceptOk {ε α : Type} : Except ε α → Bool
  | .ok _ => true
  | .error _ => false

/-- `amountOut` of a successful quote (0 on error; only used under success). -/
def quoteAmountOut (e : Except String AmmSwapQuote) : ℚ :=
  match e with
  | .ok q => q.amountOut
  | .error _ => 0

/-- `feePaid` of a successful quote (0 on error; only used under success). -/
def quoteFeePaid (e : Except String AmmSwapQuote) : ℚ :=
  match e with
  | .ok q => q.feePaid
  | .error _ => 0

/-! ### Helper lemmas about the AMM quote -/

theorem amm_eval_degenerate (x rIn rOut fee : ℚ) (h1 : ¬x < 0)
    (h2 : ¬(rIn ≤ 0 ∨ rOut ≤ 0)) (h3 : x * (1 - fee / 10000) = 0) :
    getConstantProductQuote x rIn rOut fee = .ok ⟨0, 0, x⟩ := by
  simp [getConstantProductQuote, h1, h2, h3]

theorem amm_amountOut_main (x rIn rOut fee : ℚ) (h1 : ¬x < 0)
    (h2 : ¬(rIn ≤ 0 ∨ rOut ≤ 0)) (h3 : ¬x * (1 - fee / 10000) = 0) :
    quoteAmountOut (getConstantProductQuote x rIn rOut fee) =
      x * (1 - fee / 10000) * rOut / (rIn + x * (1 - fee / 10000)) := by
  simp [getConstantProductQuote, h1, h2, h3, quoteAmountOut]

theorem amm_feePaid_main (x rIn rOut fee : ℚ) (h1 : ¬x < 0)
    (h2 : ¬(rIn ≤ 0 ∨ rOut ≤ 0)) (h3 : ¬x * (1 - fee / 10000) = 0) :
    quoteFeePaid (getConstantProductQuote x rIn rOut fee) =
      x - x * (1 - fee / 10000) := by
  simp [getConstantProductQuote, h1, h2, h3, quoteFeePaid]

theorem amm_ok_of_valid (x rIn rOut fee : ℚ) (h1 : ¬x < 0)
    (h2 : ¬(rIn ≤ 0 ∨ rOut ≤ 0)) :
    exceptOk (getConstantProductQuote x rIn rOut fee) = true := by
  by_cases h3 : x * (1 - fee / 10000) = 0
  · rw [amm_eval_degenerate x rIn rOut fee h1 h2 h3]; rfl
  · simp [getConstantProductQuote, h1, h2, h3, exceptOk]

/-- C1: under the preconditions `amountIn ≥ 0`, `reserveIn > 0`, `reserveOut > 0`,
`getConstantProductQuote` returns the degenerate quote `(0, 0, amountIn)` when
`amountInAfterFee = 0` and otherwise the constant-product closed form
`amountOut = amountInAfterFee * reserveOut / (reserveIn + amountInAfterFee)`
with `feePaid = amountIn - amountInAfterFee`; it fails with an error exactly
when `amountIn < 0` or a reserve is `≤ 0`. -/
theorem amm_quote_formula_and_errors (aIn rIn rOut fee : ℚ) :
    (exceptOk (getConstantProductQuote aIn rIn rOut fee) = false ↔
      aIn < 0 ∨ rIn ≤ 0 ∨ rOut ≤ 0)
    ∧ (0 ≤ aIn → 0 < rIn → 0 < rOut →
        (aIn * (1 - fee / 10000) = 0 →
          getConstantProductQuote aIn rIn rOut fee = .ok ⟨0, 0, aIn⟩)
        ∧ (aIn * (1 - fee / 10000) ≠ 0 →
            quoteAmountOut (getConstantProductQuote aIn rIn rOut fee) =
              aIn * (1 - fee / 10000) * rOut /
                (rIn + aIn * (1 - fee / 10000)) ∧
            quoteFeePaid (getConstantProductQuote aIn rIn rOut fee) =
              aIn - aIn * (1 - fee / 10000))) := by
  constructor
  · by_cases h1 : aIn < 0
    · simp [getConstantProductQuote, h1, exceptOk]
    · by_cases h2 : rIn ≤ 0 ∨ rOut ≤ 0
      · simp only [getConstantProductQuote, if_neg h1, if_pos h2]
        simp [exceptOk, h1, h2]
      · rw [amm_ok_of_valid aIn rIn rOut fee h1 h2]
        simp only [Bool.true_eq_false, false_iff]
        push_neg at h2 ⊢
        exact ⟨not_lt.mp h1, h2.1, h2.2⟩
  · intro h0 hrIn hrOut
    have h1 : ¬aIn < 0 := not_lt.mpr h0
    have h2 : ¬(rIn ≤ 0 ∨ rOut ≤ 0) := by
      push_neg
      exact ⟨hrIn, hrOut⟩
    exact ⟨fun h3 => amm_eval_degenerate aIn rIn rOut fee h1 h2 h3,
      fun h3 => ⟨amm_amountOut_main aIn rIn rOut fee h1 h2 h3,
        amm_feePaid_main aIn rIn rOut fee h1 h2 h3⟩⟩

theorem amm_quote_formula_and_errors_witness :
    quoteAmountOut (getConstantProductQuote 5 100 200 30) =
      5 * (1 - 30 / 10000) * 200 / (100 + 5 * (1 - 30 / 10000)) ∧
    quoteFeePaid (getConstantProductQuote 5 100 200 30) =
      5 - 5 * (1 - 30 / 10000) :=
  ((amm_quote_formula_and_errors 5 100 200 30).2 (by norm_num) (by norm_num)
    (by norm_num)).2 (by norm_num)

/-- C2: for fixed positive reserves and `feeBps ∈ [0, 10000)`, the quoted
`amountOut` is strictly increasing in `amountIn` over `amountIn ≥ 0`. -/
theorem amm_amountOut_strictMono (rIn rOut fee x₁ x₂ : ℚ)
    (hrIn : 0 < rIn) (hrOut : 0 < rOut) (hfee0 : 0 ≤ fee) (hfee1 : fee < 10000)
    (hx : 0 ≤ x₁) (hlt : x₁ < x₂) :
    quoteAmountOut (getConstantProductQuote x₁ rIn rOut fee) <
      quoteAmountOut (getConstantProductQuote x₂ rIn rOut fee) := by
  have hc : 0 < 1 - fee / 10000 := by
    have : fee / 10000 < 1 := (div_lt_one (by norm_num : (0:ℚ) < 10000)).mpr hfee1
    linarith
  have h2 : ¬(rIn ≤ 0 ∨ rOut ≤ 0) := by
    push_neg
    exact ⟨hrIn, hrOut⟩
  have hx₂ : 0 < x₂ := lt_of_le_of_lt hx hlt
  have h3₂ : ¬x₂ * (1 - fee / 10000) = 0 := by positivity
  have hden₂ : 0 < rIn + x₂ * (1 - fee / 10000) := by positivity
  rw [amm_amountOut_main x₂ rIn rOut fee (not_lt.mpr hx₂.le) h2 h3₂]
  rcases eq_or_lt_of_le hx with heq | hx₁
  · rw [← heq]
    rw [amm_eval_degenerate 0 rIn rOut fee (by norm_num) h2 (by ring)]
    show (0 : ℚ) < _
    positivity
  · have h3₁ : ¬x₁ * (1 - fee / 10000) = 0 := by positivity
    have hden₁ : 0 < rIn + x₁ * (1 - fee / 10000) := by positivity
    rw [amm_amountOut_main x₁ rIn rOut fee (not_lt.mpr hx₁.le) h2 h3₁]
    rw [div_lt_div_iff₀ hden₁ hden₂]
    nlinarith [mul_pos (mul_pos hc hrOut) hrIn, mul_pos hc hrIn,
      mul_pos (mul_pos hc hc) (mul_pos hx₁ hrOut)]

theorem amm_amountOut_strictMono_witness :
    quoteAmountOut (getConstantProductQuote 1 100 200 30) <
      quoteAmountOut (getConstantProductQuote 2 100 200 30) :=
  amm_amountOut_strictMono 100 200 30 1 2 (by norm_num) (by norm_num)
    (by norm_num) (by norm_num) (by norm_num) (by norm_num)

/-! ### Helper lemmas about the oracle-lag model -/

theorem oracle_hold (spot ts lag : ℚ) (st : OracleLagState)
    (h : ts - st.lastUpdateTimestamp < lag) :
    resolveOraclePrice spot ts (some lag) st = ⟨st.lastPrice, st⟩ := by
  simp [resolveOraclePrice, h]

theorem oracle_refresh (spot ts lag : ℚ) (st : OracleLagState)
    (h : lag ≤ ts - st.lastUpdateTimestamp) :
    resolveOraclePrice spot ts (some lag) st = ⟨spot, ⟨spot, ts⟩⟩ := by
  simp [resolveOraclePrice, not_lt.mpr h]

theorem oracleStateAfter_frozen (spots : ℕ → ℚ) (L : ℕ) (p0 : ℚ) :
    ∀ t, t ≤ L → oracleStateAfter spots (L : ℚ) ⟨p0, 0⟩ t = ⟨p0, 0⟩ := by
  intro t
  induction t with
  | zero => intro _; rfl
  | succ n ih =>
    intro hn
    have hlt : (n : ℚ) < (L : ℚ) := by
      exact_mod_cast Nat.lt_of_succ_le hn
    rw [oracleStateAfter, ih (Nat.le_of_succ_le hn),
      oracle_hold _ _ _ _ (by simpa using hlt)]

/-- C3: with a lag config `lagSeconds = L`, `resolveOraclePrice` returns the
held price with state unchanged when `timestamp - lastUpdateTimestamp < L` and
the spot price with refreshed state otherwise; consequently, starting from a
state updated at time 0, the calls at `t = 0, ..., L-1` (under changing spot
prices) all return the original price and the call at `t = L` returns the
then-current spot price. -/
theorem oracle_lag_hold_then_refresh :
    (∀ (L spot ts : ℚ) (st : OracleLagState),
      (ts - st.lastUpdateTimestamp < L →
        resolveOraclePrice spot ts (some L) st = ⟨st.lastPrice, st⟩)
      ∧ (L ≤ ts - st.lastUpdateTimestamp →
        resolveOraclePrice spot ts (some L) st = ⟨spot, ⟨spot, ts⟩⟩))
    ∧ (∀ (L : ℕ) (spots : ℕ → ℚ) (p0 : ℚ),
        (∀ t, t < L → oraclePriceAt spots (L : ℚ) ⟨p0, 0⟩ t = p0)
        ∧ oraclePriceAt spots (L : ℚ) ⟨p0, 0⟩ L = spots L) := by
  refine ⟨fun L spot ts st => ⟨oracle_hold spot ts L st, oracle_refresh spot ts L st⟩,
    fun L spots p0 => ⟨fun t ht => ?_, ?_⟩⟩
  · rw [oraclePriceAt, oracleStateAfter_frozen spots L p0 t ht.le,
      oracle_hold _ _ _ _ (by simpa using (by exact_mod_cast ht : (t : ℚ) < (L : ℚ)))]
  · rw [oraclePriceAt, oracleStateAfter_frozen spots L p0 L le_rfl,
      oracle_refresh _ _ _ _ (by simp)]

theorem oracle_lag_hold_then_refresh_witness :
    resolveOraclePrice 7 3 (some 5) ⟨2, 0⟩ = ⟨2, ⟨2, 0⟩⟩ ∧
    oraclePriceAt (fun n => (n : ℚ) + 10) ((2 : ℕ) : ℚ) ⟨9, 0⟩ 1 = 9 ∧
    oraclePriceAt (fun n => (n : ℚ) + 10) ((2 : ℕ) : ℚ) ⟨9, 0⟩ 2 = 12 :=
  ⟨(oracle_lag_hold_then_refresh.1 5 7 3 ⟨2, 0⟩).1 (by norm_num),
   (oracle_lag_hold_then_refresh.2 2 (fun n => (n : ℚ) + 10) 9).1 1 (by norm_num),
   by
     have h := (oracle_lag_hold_then_refresh.2 2 (fun n => (n : ℚ) + 10) 9).2
     norm_num at h
     exact h⟩

/-! ### Looping engine (src/core/looping.ts)

`Math.exp` is a floating-point transcendental in the source; the embedding
takes the growth function `E : ℚ → ℚ` as an explicit parameter, so theorems
state exactly which properties of it (monotonicity, `E 0 = 1`, positivity)
they rely on.  The swap provider is modelled as a deterministic function of
the iteration index and the quote input, which captures the awaited,
strictly-sequential provider calls of the source (one call per iteration,
the provider may carry per-iteration internal state such as mutated pool
reserves).  `route`/`provenance` payloads and the provenance hash are opaque
to every claim and are omitted. -/

/-- Input record of one swap-provider call (`SwapQuoteInput`). -/
structure SwapQuoteIn where
  amountInDebt : ℚ
  idealAmountOutCollateral : ℚ
  borrowValueUsd : ℚ
deriving DecidableEq, Repr

/-- Output record of one swap-provider call (`SwapQuoteOutput`); `feesUsd` is
already defaulted (`quote.feesUsd ?? 0`). -/
structure SwapQuoteOut where
  amountOutCollateral : ℚ
  feesUsd : ℚ
deriving DecidableEq, Repr

/-- One action-plan entry (borrow / swap / supply legs). -/
structure SimStep where
  borrowAsset : String
  borrowAmount : ℚ
  swapFrom : String
  swapTo : String
  swapAmountIn : ℚ
  swapAmountOut : ℚ
  supplyAsset : String
  supplyAmount : ℚ
deriving DecidableEq, Repr

/-- The mutable locals of `simulateLooping`'s loop, plus the action plan. -/
structure LoopState where
  runningCollateral : ℚ
  runningDebt : ℚ
  collateralValueUsd : ℚ
  debtValueUsd : ℚ
  slippageCostUsd : ℚ
  plan : List SimStep
deriving DecidableEq, Repr

/-- The `for (let i = 0; i < input.loops; ...)` loop of `simulateLooping`
(Looping.ts lines 300-350): `fuel` is the number of iterations still
requested, `i` the next provider-call index.  The `break` on a zero borrow
value is the early exit. -/
def runLoops (P : ℕ → SwapQuoteIn → SwapQuoteOut) (collateralSym debtSym : String)
    (collateralPriceUsd debtPriceUsd borrowFraction : ℚ) :
    ℕ → ℕ → LoopState → LoopState
  | 0, _, st => st
  | fuel + 1, i, st =>
    let borrowValueUsd := st.collateralValueUsd * borrowFraction
    if borrowValueUsd = 0 then st
    else
      let borrowAmountDebt := borrowValueUsd / debtPriceUsd
      let idealOutCollateral := borrowValueUsd / collateralPriceUsd
      let q := P i ⟨borrowAmountDebt, idealOutCollateral, borrowValueUsd⟩
      let loopCollateralOut := q.amountOutCollateral
      let runningCollateral := st.runningCollateral + loopCollateralOut
      let runningDebt := st.runningDebt + borrowAmountDebt
      let collateralValueUsd := runningCollateral * collateralPriceUsd
      let debtValueUsd := runningDebt * debtPriceUsd
      let slippageUnits := idealOutCollateral - loopCollateralOut
      let slippageUsd := (if slippageUnits < 0 then 0 else slippageUnits) * collateralPriceUsd
      let st' : LoopState :=
        ⟨runningCollateral, runningDebt, collateralValueUsd, debtValueUsd,
          st.slippageCostUsd + slippageUsd + q.feesUsd,
          st.plan ++ [⟨debtSym, borrowAmountDebt, debtSym, collateralSym,
            borrowAmountDebt, loopCollateralOut, collateralSym, loopCollateralOut⟩]⟩
      runLoops P collateralSym debtSym collateralPriceUsd debtPriceUsd
        borrowFraction fuel (i + 1) st'

/-- `(collateralValueUsd * lltv) / debtValueUsd`, `+∞` when the debt value is
zero — the health-factor expression used at every site in the source. -/
def healthFactor (collateralValueUsd lltv debtValueUsd : ℚ) : WithTop ℚ :=
  if debtValueUsd = 0 then ⊤
  else ((collateralValueUsd * lltv / debtValueUsd : ℚ) : WithTop ℚ)

/-- `expApr`: continuous compounding, short-circuiting the transcendental
call when the rate or the day index is zero. -/
def expApr (E : ℚ → ℚ) (amount apr : ℚ) (days : ℕ) : ℚ :=
  if apr = 0 ∨ days = 0 then amount
  else amount * E (apr * days * 86400 / 31536000)

/-- JS truthiness of `oracleLagSeconds ? { lagSeconds } : undefined`:
a lag of 0 behaves like no lag config. -/
def effectiveLagConfig (oracleLagSeconds : Option ℚ) : Option ℚ :=
  match oracleLagSeconds with
  | some l => if l = 0 then none else some l
  | none => none

/-- One point of the projected time series.  The source rounds the exported
`collateral`/`debt`/`equity` numbers to 12 decimal places for display; the
embedding keeps the exact values. -/
structure TimeSeriesPoint where
  t : ℕ
  collateral : ℚ
  debt : ℚ
  equity : ℚ
  hf : WithTop ℚ
deriving DecidableEq

/-- The `for (day = 0; day <= horizonDays; ...)` loop of `buildTimeSeries`:
`count` points remain, starting at index `day`, with the threaded oracle
state. -/
def buildTimeSeriesAux (E : ℚ → ℚ) (collateralAmount debtAmount supplyApr
    borrowApr collateralPriceUsd debtPriceUsd lltv : ℚ)
    (oracleLagSeconds : Option ℚ) :
    ℕ → ℕ → OracleLagState → List TimeSeriesPoint
  | 0, _, _ => []
  | count + 1, day, oracleState =>
    let collateralAtT := expApr E collateralAmount supplyApr day
    let debtAtT := expApr E debtAmount borrowApr day
    let timestamp : ℚ := (day : ℚ) * 86400
    let r := resolveOraclePrice collateralPriceUsd timestamp
      (effectiveLagConfig oracleLagSeconds) oracleState
    let collateralValueUsd := collateralAtT * r.price
    let debtValueUsd := debtAtT * debtPriceUsd
    let equityUsd := collateralValueUsd - debtValueUsd
    ⟨day, collateralAtT, debtAtT, equityUsd,
      healthFactor collateralValueUsd lltv debtValueUsd⟩ ::
      buildTimeSeriesAux E collateralAmount debtAmount supplyApr borrowApr
        collateralPriceUsd debtPriceUsd lltv oracleLagSeconds count (day + 1) r.state

/-- Embedding of `buildTimeSeries`: days `0 .. horizonDays` inclusive, oracle
state seeded with the (constant) collateral spot price at timestamp 0. -/
def buildTimeSeries (E : ℚ → ℚ) (collateralAmount debtAmount : ℚ)
    (horizonDays : ℕ) (supplyApr borrowApr collateralPriceUsd debtPriceUsd
    lltv : ℚ) (oracleLagSeconds : Option ℚ) : List TimeSeriesPoint :=
  buildTimeSeriesAux E collateralAmount debtAmount supplyApr borrowApr
    collateralPriceUsd debtPriceUsd lltv oracleLagSeconds
    (horizonDays + 1) 0 ⟨collateralPriceUsd, 0⟩

/-- Outcome record shared by `evaluateSeries` and `runPriceJumpScenario`. -/
structure StressOutcome where
  minHf : WithTop ℚ
  liquidated : Bool
  liqLossUsd : Option ℚ
deriving DecidableEq

/-- The shared min-tracking step: on a new minimum, re-derive the optional
liquidation loss exactly as the source does (only when the new minimum is
below 1, and only a positive shortfall is kept). -/
def minHfStep (acc : WithTop ℚ × Option ℚ) (hf : WithTop ℚ) (shortfall : ℚ) :
    WithTop ℚ × Option ℚ :=
  if hf < acc.1 then
    (hf, if hf < 1 then (if 0 < shortfall then some shortfall else none) else acc.2)
  else acc

/-- Embedding of `evaluateSeries` (min HF over a series' stored `hf`
values). -/
def evaluateSeries (series : List TimeSeriesPoint)
    (lltv collateralPriceUsd debtPriceUsd : ℚ) : StressOutcome :=
  let r := series.foldl
    (fun acc point =>
      minHfStep acc point.hf
        (point.debt * debtPriceUsd - point.collateral * collateralPriceUsd * lltv))
    ((⊤ : WithTop ℚ), (none : Option ℚ))
  ⟨r.1, decide (r.1 < 1), r.2⟩

/-- Embedding of `runPriceJumpScenario`: re-walk the base series applying the
price multiplier from `atDay` on, recomputing HF from scratch. -/
def runPriceJumpScenario (baseSeries : List TimeSeriesPoint) (shockPct : ℚ)
    (atDay : ℕ) (lltv collateralPriceUsd debtPriceUsd : ℚ) : StressOutcome :=
  let r := baseSeries.foldl
    (fun acc point =>
      let priceMultiplier : ℚ := if atDay ≤ point.t then 1 + shockPct else 1
      let collateralValueUsd := point.collateral * collateralPriceUsd * priceMultiplier
      let debtValueUsd := point.debt * debtPriceUsd
      minHfStep acc (healthFactor collateralValueUsd lltv debtValueUsd)
        (debtValueUsd - collateralValueUsd * lltv))
    ((⊤ : WithTop ℚ), (none : Option ℚ))
  ⟨r.1, decide (r.1 < 1), r.2⟩

/-- A stress-scenario spec (`ScenarioSpec` union in src/types.ts). -/
inductive ScenarioSpec
  | priceJump (asset : String) (shockPct : ℚ) (atDay : ℕ)
  | ratesShift (borrowAprDeltaBps : ℚ)
  | oracleLag (lagSeconds : ℚ)
deriving DecidableEq

/-- One entry of the result's `stress` array. -/
structure StressResult where
  scenario : String
  minHf : WithTop ℚ
  liquidated : Bool
  liqLossUsd : Option ℚ
deriving DecidableEq

/-- The resolved collaborator inputs of one run (`SimulationDependencies`
after price/rate resolution). -/
structure SimDeps where
  collateralPriceUsd : ℚ
  debtPriceUsd : ℚ
  supplyApr : ℚ
  borrowApr : ℚ
  lltv : ℚ
  oracleLagSeconds : Option ℚ
deriving DecidableEq

/-- The scenario dispatch inside `simulateLooping`'s stress loop. -/
def runScenario (E : ℚ → ℚ) (deps : SimDeps) (horizonDays : ℕ)
    (baseSeries : List TimeSeriesPoint)
    (runningCollateral runningDebt : ℚ) : ScenarioSpec → StressResult
  | .priceJump asset shockPct atDay =>
    let o := runPriceJumpScenario baseSeries shockPct atDay deps.lltv
      deps.collateralPriceUsd deps.debtPriceUsd
    ⟨"price_jump:" ++ asset ++ ":" ++ toString shockPct ++ ":" ++ toString atDay,
      o.minHf, o.liquidated, o.liqLossUsd⟩
  | .ratesShift deltaBps =>
    let s := buildTimeSeries E runningCollateral runningDebt horizonDays
      deps.supplyApr (deps.borrowApr + deltaBps / 10000) deps.collateralPriceUsd
      deps.debtPriceUsd deps.lltv deps.oracleLagSeconds
    let o := evaluateSeries s deps.lltv deps.collateralPriceUsd deps.debtPriceUsd
    ⟨"rates_shift:" ++ toString deltaBps, o.minHf, o.liquidated, o.liqLossUsd⟩
  | .oracleLag lagSeconds =>
    let s := buildTimeSeries E runningCollateral runningDebt horizonDays
      deps.supplyApr deps.borrowApr deps.collateralPriceUsd deps.debtPriceUsd
      deps.lltv (some lagSeconds)
    let o := evaluateSeries s deps.lltv deps.collateralPriceUsd deps.debtPriceUsd
    ⟨"oracle_lag:" ++ toString lagSeconds, o.minHf, o.liquidated, o.liqLossUsd⟩

/-- Embedding of `computeLiquidationPrice`. -/
def computeLiquidationPrice (collateralAmount debtAmount debtPriceUsd lltv : ℚ) :
    WithTop ℚ :=
  if collateralAmount = 0 ∨ lltv = 0 then ⊤
  else
    let numerator := debtAmount * debtPriceUsd
    let denom := collateralAmount * lltv
    if denom = 0 then ⊤
    else ((numerator / denom : ℚ) : WithTop ℚ)

/-- The result's `summary` block. -/
structure SimSummary where
  loops_done : ℕ
  gross_leverage : WithTop ℚ
  net_apr : ℚ
  hf_now : WithTop ℚ
  liq_price : WithTop ℚ
  slip_cost_usd : ℚ
deriving DecidableEq

/-- The parts of `LoopingSimulationResult` the engine computes (receipt and
protocol-params echo carry no engine math and are omitted). -/
structure SimResult where
  summary : SimSummary
  time_series : List TimeSeriesPoint
  stress : List StressResult
  action_plan : List SimStep
deriving DecidableEq

/-- The validated caller input after upstream resolution: `startCapital` is
`new BigNumber(input.start_capital)` (`none` models a non-finite parse, i.e.
`NaN`/`±Infinity`), `horizonDays` is `input.horizon_days ?? 30`. -/
structure SimInput where
  collateralSymbol : String
  debtSymbol : String
  startCapital : Option ℚ
  targetLtv : ℚ
  loops : ℕ
  horizonDays : ℕ
  scenarios : List ScenarioSpec

/-- The body of `simulateLooping` after the start-capital guard passed with
the finite parsed value `c`. -/
def simRun (E : ℚ → ℚ) (P : ℕ → SwapQuoteIn → SwapQuoteOut) (inp : SimInput)
    (deps : SimDeps) (c : ℚ) : SimResult :=
  let borrowFraction := inp.targetLtv / deps.lltv
  let fin := runLoops P inp.collateralSymbol inp.debtSymbol
    deps.collateralPriceUsd deps.debtPriceUsd borrowFraction inp.loops 0
    ⟨c, 0, c * deps.collateralPriceUsd, 0, 0, []⟩
  let hfNow := healthFactor fin.collateralValueUsd deps.lltv fin.debtValueUsd
  let equityUsd := fin.collateralValueUsd - fin.debtValueUsd
  let grossLeverage : WithTop ℚ :=
    if equityUsd ≤ 0 then ⊤
    else ((fin.collateralValueUsd / equityUsd : ℚ) : WithTop ℚ)
  let timeSeries := buildTimeSeries E fin.runningCollateral fin.runningDebt
    inp.horizonDays deps.supplyApr deps.borrowApr deps.collateralPriceUsd
    deps.debtPriceUsd deps.lltv deps.oracleLagSeconds
  let stressResults := inp.scenarios.map
    (runScenario E deps inp.horizonDays timeSeries fin.runningCollateral
      fin.runningDebt)
  let liqPrice := computeLiquidationPrice fin.runningCollateral fin.runningDebt
    deps.debtPriceUsd deps.lltv
  let equityStart := ((timeSeries.head?).map TimeSeriesPoint.equity).getD 0
  let equityEnd := ((timeSeries.getLast?).map TimeSeriesPoint.equity).getD equityStart
  let netApr :=
    if 0 < equityStart ∧ 0 < inp.horizonDays then
      (equityEnd - equityStart) / equityStart / ((inp.horizonDays : ℚ) / 365)
    else deps.supplyApr - deps.borrowApr
  ⟨⟨fin.plan.length, grossLeverage, netApr, hfNow, liqPrice, fin.slippageCostUsd⟩,
    timeSeries, stressResults, fin.plan⟩

/-- Embedding of `simulateLooping`: the start-capital guard
(`!isFinite || isNegative` throws), then the pure run. -/
def simulateLooping (E : ℚ → ℚ) (P : ℕ → SwapQuoteIn → SwapQuoteOut)
    (inp : SimInput) (deps : SimDeps) : Except String SimResult :=
  match inp.startCapital with
  | none => .error "start_capital must be a positive numeric string"
  | some c =>
    if c < 0 then .error "start_capital must be a positive numeric string"
    else .ok (simRun E P inp deps c)

/-- Plain minimum of the `hf` values of a series (`Math.min(...hf)` in the
tests; `⊤` for an all-infinite or empty series). -/
def seriesMinHf (series : List TimeSeriesPoint) : WithTop ℚ :=
  series.foldl (fun m point => min m point.hf) ⊤

/-! ### Risk checks (src/risk/canExecute.ts) -/

/-- `{ ok, reasons }` record of both risk checks. -/
structure RiskCheckResult where
  ok : Bool
  reasons : List String
deriving DecidableEq, Repr

/-- Embedding of `preSimulationRiskCheck`.  `loops` is the raw JS number:
`none` models a non-finite value (`!Number.isFinite`), `some l` a finite one.
The source interpolates offending values into the reason strings; the
embedding keeps fixed message prefixes. -/
def preSimulationRiskCheck (targetLtv : ℚ) (loops : Option ℚ) (lltv : ℚ)
    (maxLoops : ℚ) : RiskCheckResult :=
  let reasons1 := if targetLtv ≤ 0 then ["target_ltv must be positive"] else []
  let reasons2 := if targetLtv ≥ lltv then ["target_ltv violates market LLTV"] else []
  let reasons3 :=
    match loops with
    | none => ["loops must be a positive integer"]
    | some l =>
      if l ≤ 0 then ["loops must be a positive integer"]
      else if l > maxLoops then ["loops exceeds policy maximum"] else []
  let reasons := reasons1 ++ reasons2 ++ reasons3
  ⟨reasons.isEmpty, reasons⟩

/-! ### Helper lemmas about the loop -/

theorem runLoops_values (P : ℕ → SwapQuoteIn → SwapQuoteOut) (cs ds : String)
    (cp dp bf : ℚ) :
    ∀ fuel i st, st.collateralValueUsd = st.runningCollateral * cp →
      st.debtValueUsd = st.runningDebt * dp →
      (runLoops P cs ds cp dp bf fuel i st).collateralValueUsd =
        (runLoops P cs ds cp dp bf fuel i st).runningCollateral * cp
      ∧ (runLoops P cs ds cp dp bf fuel i st).debtValueUsd =
        (runLoops P cs ds cp dp bf fuel i st).runningDebt * dp := by
  intro fuel
  induction fuel with
  | zero => exact fun i st h1 h2 => ⟨h1, h2⟩
  | succ n ih =>
    intro i st h1 h2
    by_cases hb : st.collateralValueUsd * bf = 0
    · simp only [runLoops, if_pos hb]
      exact ⟨h1, h2⟩
    · simp only [runLoops, if_neg hb]
      exact ih (i + 1) _ rfl rfl

theorem runLoops_mono (P : ℕ → SwapQuoteIn → SwapQuoteOut) (cs ds : String)
    (cp dp bf : ℚ) (hP : ∀ i q, 0 ≤ (P i q).amountOutCollateral)
    (hcp : 0 ≤ cp) (hdp : 0 ≤ dp) (hbf : 0 ≤ bf) :
    ∀ fuel i st, 0 ≤ st.runningCollateral →
      st.collateralValueUsd = st.runningCollateral * cp →
      st.runningCollateral ≤ (runLoops P cs ds cp dp bf fuel i st).runningCollateral
      ∧ st.runningDebt ≤ (runLoops P cs ds cp dp bf fuel i st).runningDebt := by
  intro fuel
  induction fuel with
  | zero => exact fun i st _ _ => ⟨le_refl _, le_refl _⟩
  | succ n ih =>
    intro i st h1 h2
    by_cases hb : st.collateralValueUsd * bf = 0
    · simp only [runLoops, if_pos hb]
      exact ⟨le_refl _, le_refl _⟩
    · have hbv : 0 ≤ st.collateralValueUsd * bf := by
        rw [h2]
        exact mul_nonneg (mul_nonneg h1 hcp) hbf
      have hout := hP i ⟨st.collateralValueUsd * bf / dp,
        st.collateralValueUsd * bf / cp, st.collateralValueUsd * bf⟩
      have hbad : 0 ≤ st.collateralValueUsd * bf / dp := div_nonneg hbv hdp
      simp only [runLoops, if_neg hb]
      constructor
      · refine le_trans (le_add_of_nonneg_right hout) ?_
        exact (ih (i + 1) _ (add_nonneg h1 hout) rfl).1
      · refine le_trans (le_add_of_nonneg_right hbad) ?_
        exact (ih (i + 1) _ (add_nonneg h1 hout) rfl).2

theorem runLoops_fuel_step (P : ℕ → SwapQuoteIn → SwapQuoteOut) (cs ds : String)
    (cp dp bf : ℚ) (hP : ∀ i q, 0 ≤ (P i q).amountOutCollateral)
    (hcp : 0 ≤ cp) (hdp : 0 ≤ dp) (hbf : 0 ≤ bf) :
    ∀ fuel i st, 0 ≤ st.runningCollateral →
      st.collateralValueUsd = st.runningCollateral * cp →
      (runLoops P cs ds cp dp bf fuel i st).runningCollateral ≤
        (runLoops P cs ds cp dp bf (fuel + 1) i st).runningCollateral
      ∧ (runLoops P cs ds cp dp bf fuel i st).runningDebt ≤
        (runLoops P cs ds cp dp bf (fuel + 1) i st).runningDebt := by
  intro fuel
  induction fuel with
  | zero =>
    intro i st h1 h2
    exact runLoops_mono P cs ds cp dp bf hP hcp hdp hbf 1 i st h1 h2
  | succ n ih =>
    intro i st h1 h2
    by_cases hb : st.collateralValueUsd * bf = 0
    · simp only [runLoops, if_pos hb]
      exact ⟨le_refl _, le_refl _⟩
    · have hout := hP i ⟨st.collateralValueUsd * bf / dp,
        st.collateralValueUsd * bf / cp, st.collateralValueUsd * bf⟩
      simp only [runLoops, if_neg hb]
      exact ih (i + 1) _ (add_nonneg h1 hout) rfl

theorem runLoops_plan_le (P : ℕ → SwapQuoteIn → SwapQuoteOut) (cs ds : String)
    (cp dp bf : ℚ) :
    ∀ fuel i st, (runLoops P cs ds cp dp bf fuel i st).plan.length ≤
      st.plan.length + fuel := by
  intro fuel
  induction fuel with
  | zero => exact fun i st => Nat.le_refl _
  | succ n ih =>
    intro i st
    by_cases hb : st.collateralValueUsd * bf = 0
    · simp only [runLoops, if_pos hb]
      omega
    · simp only [runLoops, if_neg hb]
      refine le_trans (ih (i + 1) _) ?_
      simp only [List.length_append, List.length_cons, List.length_nil]
      omega

theorem runLoops_early_exit (P : ℕ → SwapQuoteIn → SwapQuoteOut) (cs ds : String)
    (cp dp bf : ℚ) :
    ∀ fuel i st, (runLoops P cs ds cp dp bf fuel i st).plan.length <
        st.plan.length + fuel →
      (runLoops P cs ds cp dp bf fuel i st).collateralValueUsd * bf = 0 := by
  intro fuel
  induction fuel with
  | zero =>
    intro i st h
    simp only [runLoops] at h
    exact absurd h (by omega)
  | succ n ih =>
    intro i st h
    by_cases hb : st.collateralValueUsd * bf = 0
    · simp only [runLoops, if_pos hb]
      exact hb
    · simp only [runLoops, if_neg hb] at h ⊢
      refine ih (i + 1) _ ?_
      simp only [List.length_append, List.length_cons, List.length_nil]
      omega

/-- The loop state after (at most) `k` iterations of the run whose finite
start capital is `c`; `runLoops` at full fuel `inp.loops` is exactly the
post-loop state of `simRun`. -/
def loopStateAt (P : ℕ → SwapQuoteIn → SwapQuoteOut) (inp : SimInput)
    (deps : SimDeps) (c : ℚ) (k : ℕ) : LoopState :=
  runLoops P inp.collateralSymbol inp.debtSymbol deps.collateralPriceUsd
    deps.debtPriceUsd (inp.targetLtv / deps.lltv) k 0
    ⟨c, 0, c * deps.collateralPriceUsd, 0, 0, []⟩

theorem simulateLooping_ok_inv (E : ℚ → ℚ) (P : ℕ → SwapQuoteIn → SwapQuoteOut)
    (inp : SimInput) (deps : SimDeps) (r : SimResult) (c : ℚ)
    (hstart : inp.startCapital = some c)
    (hok : simulateLooping E P inp deps = .ok r) :
    ¬c < 0 ∧ r = simRun E P inp deps c := by
  simp only [simulateLooping, hstart] at hok
  by_cases hc : c < 0
  · rw [if_pos hc] at hok
    cases hok
  · rw [if_neg hc] at hok
    injection hok with h
    exact ⟨hc, h.symm⟩

/-- C4: with a provider that only returns non-negative collateral amounts and
non-negative resolved prices (with a validated non-negative `target_ltv` and
positive market `lltv`), the loop starts at `collateral = startCapital`,
`debt = 0`; running collateral and running debt are non-decreasing after each
iteration; `summary.loops_done` is the number of executed iterations, is at
most the requested `loops`, and is smaller only when the early exit on a zero
borrow USD value was taken. -/
theorem loop_state_invariants (E : ℚ → ℚ) (P : ℕ → SwapQuoteIn → SwapQuoteOut)
    (inp : SimInput) (deps : SimDeps) (r : SimResult) (c : ℚ)
    (hP : ∀ i q, 0 ≤ (P i q).amountOutCollateral)
    (hcp : 0 ≤ deps.collateralPriceUsd) (hdp : 0 ≤ deps.debtPriceUsd)
    (htl : 0 ≤ inp.targetLtv) (hlltv : 0 < deps.lltv)
    (hstart : inp.startCapital = some c) (hc : 0 ≤ c)
    (hok : simulateLooping E P inp deps = .ok r) :
    (loopStateAt P inp deps c 0).runningCollateral = c
    ∧ (loopStateAt P inp deps c 0).runningDebt = 0
    ∧ (∀ k, (loopStateAt P inp deps c k).runningCollateral ≤
          (loopStateAt P inp deps c (k + 1)).runningCollateral
        ∧ (loopStateAt P inp deps c k).runningDebt ≤
          (loopStateAt P inp deps c (k + 1)).runningDebt)
    ∧ r.summary.loops_done = (loopStateAt P inp deps c inp.loops).plan.length
    ∧ r.summary.loops_done ≤ inp.loops
    ∧ (r.summary.loops_done < inp.loops →
        (loopStateAt P inp deps c inp.loops).collateralValueUsd *
          (inp.targetLtv / deps.lltv) = 0) := by
  obtain ⟨hcneg, hr⟩ := simulateLooping_ok_inv E P inp deps r c hstart hok
  have hbf : 0 ≤ inp.targetLtv / deps.lltv := div_nonneg htl hlltv.le
  subst hr
  refine ⟨rfl, rfl, fun k => ?_, rfl, ?_, fun h => ?_⟩
  · exact runLoops_fuel_step P inp.collateralSymbol inp.debtSymbol
      deps.collateralPriceUsd deps.debtPriceUsd (inp.targetLtv / deps.lltv)
      hP hcp hdp hbf k 0 ⟨c, 0, c * deps.collateralPriceUsd, 0, 0, []⟩ hc rfl
  · have h := runLoops_plan_le P inp.collateralSymbol inp.debtSymbol
      deps.collateralPriceUsd deps.debtPriceUsd (inp.targetLtv / deps.lltv)
      inp.loops 0 ⟨c, 0, c * deps.collateralPriceUsd, 0, 0, []⟩
    simpa using h
  · have h' : (loopStateAt P inp deps c inp.loops).plan.length <
        (⟨c, 0, c * deps.collateralPriceUsd, 0, 0, []⟩ : LoopState).plan.length
        + inp.loops := by
      simpa using h
    exact runLoops_early_exit P inp.collateralSymbol inp.debtSymbol
      deps.collateralPriceUsd deps.debtPriceUsd (inp.targetLtv / deps.lltv)
      inp.loops 0 ⟨c, 0, c * deps.collateralPriceUsd, 0, 0, []⟩ h'

/-- Fixtures for concrete witness runs. -/
def wE : ℚ → ℚ := fun _ => 1

def wP : ℕ → SwapQuoteIn → SwapQuoteOut := fun _ _ => ⟨1, 0⟩

def wInp : SimInput := ⟨"WETH", "USDC", some 1, 1 / 2, 2, 1, []⟩

def wDeps : SimDeps := ⟨2, 1, 0, 0, 4 / 5, none⟩

theorem loop_state_invariants_witness :
    (loopStateAt wP wInp wDeps 1 0).runningCollateral = 1
    ∧ (loopStateAt wP wInp wDeps 1 0).runningDebt = 0
    ∧ (loopStateAt wP wInp wDeps 1 0).runningDebt ≤
        (loopStateAt wP wInp wDeps 1 1).runningDebt
    ∧ (simRun wE wP wInp wDeps 1).summary.loops_done ≤ wInp.loops := by
  obtain ⟨h1, h2, h3, _, h5, _⟩ := loop_state_invariants wE wP wInp wDeps
    (simRun wE wP wInp wDeps 1) 1 (fun _ _ => zero_le_one) (by norm_num [wDeps])
    (by norm_num [wDeps]) (by norm_num [wInp]) (by norm_num [wDeps]) rfl
    (by norm_num) rfl
  exact ⟨h1, h2, (h3 0).2, h5⟩

/-! ### Helper lemmas for the time series -/

theorem expApr_zero_days (E : ℚ → ℚ) (a apr : ℚ) : expApr E a apr 0 = a := by
  simp [expApr]

theorem oracle_price_const (cp ts : ℚ) (cfg : Option ℚ) (u : ℚ) :
    (resolveOraclePrice cp ts cfg ⟨cp, u⟩).price = cp := by
  cases cfg with
  | none => rfl
  | some l =>
    by_cases h : ts - u < l
    · simp [resolveOraclePrice, h]
    · simp [resolveOraclePrice, h]

/-- C5: the health factor of the first time-series point (`t = 0`) equals
`summary.hf_now`; both are computed from the same post-loop running totals,
prices and `lltv` (including the `+∞`-on-zero-debt case). -/
theorem hf_now_matches_first_point (E : ℚ → ℚ)
    (P : ℕ → SwapQuoteIn → SwapQuoteOut) (inp : SimInput) (deps : SimDeps)
    (r : SimResult) (hok : simulateLooping E P inp deps = .ok r) :
    (r.time_series.head?).map TimeSeriesPoint.hf = some r.summary.hf_now := by
  cases hstart : inp.startCapital with
  | none =>
    rw [simulateLooping, hstart] at hok
    cases hok
  | some c =>
    obtain ⟨hcneg, hr⟩ := simulateLooping_ok_inv E P inp deps r c hstart hok
    subst hr
    have hv := runLoops_values P inp.collateralSymbol inp.debtSymbol
      deps.collateralPriceUsd deps.debtPriceUsd (inp.targetLtv / deps.lltv)
      inp.loops 0 ⟨c, 0, c * deps.collateralPriceUsd, 0, 0, []⟩ rfl
      (zero_mul deps.debtPriceUsd).symm
    show ((buildTimeSeries E (loopStateAt P inp deps c inp.loops).runningCollateral
        (loopStateAt P inp deps c inp.loops).runningDebt inp.horizonDays
        deps.supplyApr deps.borrowApr deps.collateralPriceUsd deps.debtPriceUsd
        deps.lltv deps.oracleLagSeconds).head?).map TimeSeriesPoint.hf =
      some (healthFactor (loopStateAt P inp deps c inp.loops).collateralValueUsd
        deps.lltv (loopStateAt P inp deps c inp.loops).debtValueUsd)
    rw [buildTimeSeries, buildTimeSeriesAux]
    simp only [List.head?_cons, Option.map_some']
    rw [expApr_zero_days, expApr_zero_days, oracle_price_const]
    simp only [loopStateAt]
    rw [hv.1, hv.2]

theorem hf_now_matches_first_point_witness :
    (((simRun wE wP wInp wDeps 1).time_series.head?).map TimeSeriesPoint.hf) =
      some (simRun wE wP wInp wDeps 1).summary.hf_now :=
  hf_now_matches_first_point wE wP wInp wDeps (simRun wE wP wInp wDeps 1) rfl

/-- C8 counterexample: `preSimulationRiskCheck` passes a non-integral loop
count (`loops = 5/2` with policy maximum 10 and a valid `target_ltv`), so
"ok exactly when loops is a positive integer ..." fails: `5/2` lies strictly
between the consecutive integers 2 and 3, hence is no integer. -/
theorem precheck_accepts_nonintegral_loops :
    (preSimulationRiskCheck (1 / 2) (some (5 / 2)) (86 / 100) 10).ok = true
    ∧ (2 : ℚ) < 5 / 2 ∧ (5 : ℚ) / 2 < 3 := by
  refine ⟨?_, by norm_num, by norm_num⟩
  norm_num [preSimulationRiskCheck]

/-- C8 (amended): `preSimulationRiskCheck` returns ok exactly when
`target_ltv > 0`, `target_ltv` is strictly less than the market `lltv`, and
`loops` is a finite number with `0 < loops ≤ maxLoops` — integrality of
`loops` is not checked; the reasons list is empty iff ok. -/
theorem precheck_ok_iff (targetLtv : ℚ) (loops : Option ℚ) (lltv maxLoops : ℚ) :
    ((preSimulationRiskCheck targetLtv loops lltv maxLoops).ok = true ↔
      0 < targetLtv ∧ targetLtv < lltv ∧
        ∃ l, loops = some l ∧ 0 < l ∧ l ≤ maxLoops)
    ∧ ((preSimulationRiskCheck targetLtv loops lltv maxLoops).reasons = [] ↔
      (preSimulationRiskCheck targetLtv loops lltv maxLoops).ok = true) := by
  constructor
  · cases loops with
    | none =>
      simp only [preSimulationRiskCheck]
      split_ifs <;> simp_all
    | some l =>
      simp only [preSimulationRiskCheck]
      split_ifs with h1 h2 h3 h4 <;>
        simp_all [List.isEmpty_iff, not_le, not_lt]
  · exact (List.isEmpty_iff).symm

/-- C9 counterexample: a start capital of exactly `0` is *non-positive* but is
accepted by `simulateLooping` (the guard only rejects negative or non-finite
parses), so the run is not rejected. -/
theorem zero_start_capital_accepted :
    exceptOk (simulateLooping wE wP
      ⟨"WETH", "USDC", some 0, 1 / 2, 2, 1, []⟩ wDeps) = true := rfl

/-- C9 (amended): a non-finite or strictly negative parsed start capital
rejects the run with an error before any loop iteration (no partial result);
a zero start capital is accepted and produces a run with zero loop
iterations executed. -/
theorem start_capital_validation (E : ℚ → ℚ)
    (P : ℕ → SwapQuoteIn → SwapQuoteOut) (inp : SimInput) (deps : SimDeps) :
    (inp.startCapital = none →
      simulateLooping E P inp deps =
        .error "start_capital must be a positive numeric string")
    ∧ (∀ c, inp.startCapital = some c → c < 0 →
      simulateLooping E P inp deps =
        .error "start_capital must be a positive numeric string")
    ∧ (∀ c, inp.startCapital = some c → c = 0 →
      simulateLooping E P inp deps = .ok (simRun E P inp deps c)
      ∧ (simRun E P inp deps c).summary.loops_done = 0) := by
  refine ⟨fun h => ?_, fun c hc hneg => ?_, fun c hc hc0 => ?_⟩
  · rw [simulateLooping, h]
  · simp only [simulateLooping, hc]
    rw [if_pos hneg]
  · subst hc0
    refine ⟨?_, ?_⟩
    · simp only [simulateLooping, hc]
      rw [if_neg (by norm_num)]
    · show (loopStateAt P inp deps 0 inp.loops).plan.length = 0
      cases hfuel : inp.loops with
      | zero => rfl
      | succ n =>
        simp [loopStateAt, runLoops, zero_mul]

theorem start_capital_validation_witness :
    simulateLooping wE wP ⟨"WETH", "USDC", none, 1 / 2, 2, 1, []⟩ wDeps =
      .error "start_capital must be a positive numeric string"
    ∧ simulateLooping wE wP ⟨"WETH", "USDC", some (-1), 1 / 2, 2, 1, []⟩ wDeps =
      .error "start_capital must be a positive numeric string"
    ∧ (simRun wE wP ⟨"WETH", "USDC", some 0, 1 / 2, 2, 1, []⟩ wDeps 0).summary.loops_done = 0 :=
  ⟨(start_capital_validation wE wP ⟨"WETH", "USDC", none, 1 / 2, 2, 1, []⟩ wDeps).1 rfl,
   (start_capital_validation wE wP ⟨"WETH", "USDC", some (-1), 1 / 2, 2, 1, []⟩ wDeps).2.1
     (-1) rfl (by norm_num),
   ((start_capital_validation wE wP ⟨"WETH", "USDC", some 0, 1 / 2, 2, 1, []⟩ wDeps).2.2
     0 rfl rfl).2⟩

/-- C10: two `price_jump` scenarios that differ only in their `asset` field
(same `shock_pct`, same `at_day`) evaluate to identical `min_hf`,
`liquidated` and `liq_loss_usd` against any base series — the shock is always
applied to the collateral price; `asset` only enters the label string. -/
theorem price_jump_asset_irrelevant (E : ℚ → ℚ) (deps : SimDeps)
    (horizonDays : ℕ) (baseSeries : List TimeSeriesPoint)
    (runningCollateral runningDebt : ℚ) (a₁ a₂ : String) (shockPct : ℚ)
    (atDay : ℕ) :
    (runScenario E deps horizonDays baseSeries runningCollateral runningDebt
        (.priceJump a₁ shockPct atDay)).minHf =
      (runScenario E deps horizonDays baseSeries runningCollateral runningDebt
        (.priceJump a₂ shockPct atDay)).minHf
    ∧ (runScenario E deps horizonDays baseSeries runningCollateral runningDebt
        (.priceJump a₁ shockPct atDay)).liquidated =
      (runScenario E deps horizonDays baseSeries runningCollateral runningDebt
        (.priceJump a₂ shockPct atDay)).liquidated
    ∧ (runScenario E deps horizonDays baseSeries runningCollateral runningDebt
        (.priceJump a₁ shockPct atDay)).liqLossUsd =
      (runScenario E deps horizonDays baseSeries runningCollateral runningDebt
        (.priceJump a₂ shockPct atDay)).liqLossUsd :=
  ⟨rfl, rfl, rfl⟩

/-! ### Helper lemmas for the rates-shift comparison -/

theorem oracle_resolve_const_spot (cp ts : ℚ) (cfg : Option ℚ)
    (st : OracleLagState) (h : st.lastPrice = cp) :
    (resolveOraclePrice cp ts cfg st).price = cp ∧
    (resolveOraclePrice cp ts cfg st).state.lastPrice = cp := by
  cases cfg with
  | none => exact ⟨rfl, rfl⟩
  | some l =>
    by_cases hh : ts - st.lastUpdateTimestamp < l
    · constructor <;> simp [resolveOraclePrice, hh, h]
    · constructor <;> simp [resolveOraclePrice, hh]

theorem expApr_nonneg (E : ℚ → ℚ) (hEpos : ∀ x, 0 ≤ E x) (a apr : ℚ)
    (days : ℕ) (ha : 0 ≤ a) : 0 ≤ expApr E a apr days := by
  by_cases h : apr = 0 ∨ days = 0
  · simpa [expApr, h] using ha
  · simp only [expApr, if_neg h]
    exact mul_nonneg ha (hEpos _)

theorem expApr_of_apr_zero (E : ℚ → ℚ) (a : ℚ) (days : ℕ) :
    expApr E a 0 days = a := by
  simp [expApr]

theorem expApr_of_ne (E : ℚ → ℚ) (a apr : ℚ) (days : ℕ) (h1 : apr ≠ 0)
    (h2 : days ≠ 0) :
    expApr E a apr days = a * E (apr * days * 86400 / 31536000) := by
  rw [expApr, if_neg]
  push_neg
  exact ⟨h1, h2⟩

theorem expApr_mono_apr (E : ℚ → ℚ) (hmono : ∀ x y, x ≤ y → E x ≤ E y)
    (hE0 : E 0 = 1) (a : ℚ) (ha : 0 ≤ a) (apr aprS : ℚ) (h : apr ≤ aprS)
    (days : ℕ) : expApr E a apr days ≤ expApr E a aprS days := by
  rcases Nat.eq_zero_or_pos days with hd | hd
  · subst hd
    simp [expApr]
  · have hdq : (0 : ℚ) < (days : ℚ) := by exact_mod_cast hd
    have hdays : days ≠ 0 := Nat.pos_iff_ne_zero.mp hd
    by_cases h1 : apr = 0
    · subst h1
      by_cases h2 : aprS = 0
      · subst h2
        exact le_refl _
      · have harg : (0 : ℚ) ≤ aprS * days * 86400 / 31536000 := by
          have haprS : 0 < aprS := lt_of_le_of_ne h (Ne.symm h2)
          positivity
        have hE1 : 1 ≤ E (aprS * days * 86400 / 31536000) := by
          rw [← hE0]
          exact hmono _ _ harg
        rw [expApr_of_apr_zero, expApr_of_ne E a aprS days h2 hdays]
        nlinarith
    · by_cases h2 : aprS = 0
      · subst h2
        have hapr : apr < 0 := lt_of_le_of_ne h h1
        have harg : apr * days * 86400 / 31536000 ≤ 0 := by
          apply div_nonpos_of_nonpos_of_nonneg _ (by norm_num)
          nlinarith
        have hE1 : E (apr * days * 86400 / 31536000) ≤ 1 := by
          rw [← hE0]
          exact hmono _ _ harg
        rw [expApr_of_apr_zero, expApr_of_ne E a apr days h1 hdays]
        nlinarith
      · have hstep : apr * (days : ℚ) * 86400 ≤ aprS * days * 86400 :=
          mul_le_mul_of_nonneg_right
            (mul_le_mul_of_nonneg_right h hdq.le) (by norm_num)
        have harg : apr * days * 86400 / 31536000 ≤
            aprS * days * 86400 / 31536000 :=
          div_le_div_of_nonneg_right hstep (by norm_num)
        rw [expApr_of_ne E a apr days h1 hdays, expApr_of_ne E a aprS days h2 hdays]
        exact mul_le_mul_of_nonneg_left (hmono _ _ harg) ha

theorem healthFactor_anti (cv lltv dv dvS : ℚ) (hnum : 0 ≤ cv * lltv)
    (h0 : 0 ≤ dv) (h : dv ≤ dvS) :
    healthFactor cv lltv dvS ≤ healthFactor cv lltv dv := by
  by_cases hdv : dv = 0
  · subst hdv
    simp only [healthFactor, if_pos rfl]
    exact le_top
  · have hdvpos : 0 < dv := lt_of_le_of_ne h0 (Ne.symm hdv)
    have hdvS : 0 < dvS := lt_of_lt_of_le hdvpos h
    simp only [healthFactor, if_neg hdv, if_neg (ne_of_gt hdvS)]
    rw [WithTop.coe_le_coe]
    rw [div_le_div_iff₀ hdvS hdvpos]
    nlinarith

theorem buildTimeSeriesAux_rates_shift_le (E : ℚ → ℚ)
    (hmono : ∀ x y, x ≤ y → E x ≤ E y) (hE0 : E 0 = 1) (hEpos : ∀ x, 0 ≤ E x)
    (c d sApr bApr bAprS cp dp lltv : ℚ) (lag : Option ℚ)
    (hc : 0 ≤ c) (hd : 0 ≤ d) (hcp : 0 ≤ cp) (hdp : 0 ≤ dp) (hlltv : 0 ≤ lltv)
    (hshift : bApr ≤ bAprS) :
    ∀ count day st, st.lastPrice = cp →
      List.Forall₂ (fun p q => p.hf ≤ q.hf)
        (buildTimeSeriesAux E c d sApr bAprS cp dp lltv lag count day st)
        (buildTimeSeriesAux E c d sApr bApr cp dp lltv lag count day st) := by
  intro count
  induction count with
  | zero => exact fun day st _ => List.Forall₂.nil
  | succ n ih =>
    intro day st hst
    rw [buildTimeSeriesAux, buildTimeSeriesAux]
    have hp := oracle_resolve_const_spot cp ((day : ℚ) * 86400)
      (effectiveLagConfig lag) st hst
    refine List.Forall₂.cons ?_ (ih (day + 1) _ hp.2)
    show healthFactor (expApr E c sApr day *
        (resolveOraclePrice cp ((day : ℚ) * 86400) (effectiveLagConfig lag) st).price)
        lltv (expApr E d bAprS day * dp) ≤
      healthFactor (expApr E c sApr day *
        (resolveOraclePrice cp ((day : ℚ) * 86400) (effectiveLagConfig lag) st).price)
        lltv (expApr E d bApr day * dp)
    rw [hp.1]
    apply healthFactor_anti
    · exact mul_nonneg (mul_nonneg (expApr_nonneg E hEpos c sApr day hc) hcp) hlltv
    · exact mul_nonneg (expApr_nonneg E hEpos d bApr day hd) hdp
    · exact mul_le_mul_of_nonneg_right
        (expApr_mono_apr E hmono hE0 d hd bApr bAprS hshift day) hdp

theorem foldl_minHfStep_fst (f : TimeSeriesPoint → ℚ) :
    ∀ (series : List TimeSeriesPoint) (acc : WithTop ℚ × Option ℚ),
      (series.foldl (fun a pt => minHfStep a pt.hf (f pt)) acc).1 =
        series.foldl (fun m pt => min m pt.hf) acc.1 := by
  intro series
  induction series with
  | nil => exact fun acc => rfl
  | cons p l ih =>
    intro acc
    rw [List.foldl_cons, List.foldl_cons, ih]
    by_cases h : p.hf < acc.1
    · simp only [minHfStep, if_pos h]
      rw [min_eq_right h.le]
    · simp only [minHfStep, if_neg h]
      rw [min_eq_left (not_lt.mp h)]

theorem foldmin_le_foldmin :
    ∀ (s₁ s₂ : List TimeSeriesPoint) (m₁ m₂ : WithTop ℚ), m₁ ≤ m₂ →
      List.Forall₂ (fun p q => p.hf ≤ q.hf) s₁ s₂ →
      s₁.foldl (fun m pt => min m pt.hf) m₁ ≤
        s₂.foldl (fun m pt => min m pt.hf) m₂ := by
  intro s₁
  induction s₁ with
  | nil =>
    intro s₂ m₁ m₂ hm h
    cases h
    exact hm
  | cons p l ih =>
    intro s₂ m₁ m₂ hm h
    cases h with
    | cons hpq htail =>
      rw [List.foldl_cons, List.foldl_cons]
      exact ih _ _ _ (min_le_min hm hpq) htail

theorem evaluateSeries_minHf (series : List TimeSeriesPoint)
    (lltv cp dp : ℚ) :
    (evaluateSeries series lltv cp dp).minHf =
      series.foldl (fun m pt => min m pt.hf) ⊤ :=
  foldl_minHfStep_fst (fun pt => pt.debt * dp - pt.collateral * cp * lltv)
    series ((⊤ : WithTop ℚ), (none : Option ℚ))

/-- C7: a `rates_shift` stress scenario with a strictly positive
`borrow_apr_delta_bps` reports a `min_hf` at most the minimum health factor
of the unstressed base time series (under the monotone, unit-at-zero,
non-negative growth function modelling `Math.exp`, and the validated
non-negative run inputs). -/
theorem rates_shift_min_hf_le_base (E : ℚ → ℚ)
    (P : ℕ → SwapQuoteIn → SwapQuoteOut) (inp : SimInput) (deps : SimDeps)
    (r : SimResult) (c δ : ℚ) (j : ℕ) (out : StressResult)
    (hmono : ∀ x y, x ≤ y → E x ≤ E y) (hE0 : E 0 = 1) (hEpos : ∀ x, 0 ≤ E x)
    (hP : ∀ i q, 0 ≤ (P i q).amountOutCollateral)
    (hcp : 0 ≤ deps.collateralPriceUsd) (hdp : 0 ≤ deps.debtPriceUsd)
    (htl : 0 ≤ inp.targetLtv) (hlltv : 0 < deps.lltv)
    (hstart : inp.startCapital = some c) (hc : 0 ≤ c)
    (hok : simulateLooping E P inp deps = .ok r)
    (hsc : inp.scenarios[j]? = some (.ratesShift δ)) (hδ : 0 < δ)
    (hout : r.stress[j]? = some out) :
    out.minHf ≤ seriesMinHf r.time_series := by
  obtain ⟨hcneg, hr⟩ := simulateLooping_ok_inv E P inp deps r c hstart hok
  subst hr
  have hmono2 := runLoops_mono P inp.collateralSymbol inp.debtSymbol
    deps.collateralPriceUsd deps.debtPriceUsd (inp.targetLtv / deps.lltv)
    hP hcp hdp (div_nonneg htl hlltv.le) inp.loops 0
    ⟨c, 0, c * deps.collateralPriceUsd, 0, 0, []⟩ hc rfl
  have hRC : 0 ≤ (loopStateAt P inp deps c inp.loops).runningCollateral :=
    le_trans hc hmono2.1
  have hRD : 0 ≤ (loopStateAt P inp deps c inp.loops).runningDebt := hmono2.2
  have h1 : ((inp.scenarios.map (runScenario E deps inp.horizonDays
      (simRun E P inp deps c).time_series
      (loopStateAt P inp deps c inp.loops).runningCollateral
      (loopStateAt P inp deps c inp.loops).runningDebt))[j]?) = some out := hout
  rw [List.getElem?_map, hsc, Option.map_some'] at h1
  have hout2 := Option.some.inj h1
  subst hout2
  have hshift : deps.borrowApr ≤ deps.borrowApr + δ / 10000 :=
    le_add_of_nonneg_right (div_nonneg hδ.le (by norm_num))
  show (evaluateSeries (buildTimeSeries E
      (loopStateAt P inp deps c inp.loops).runningCollateral
      (loopStateAt P inp deps c inp.loops).runningDebt inp.horizonDays
      deps.supplyApr (deps.borrowApr + δ / 10000) deps.collateralPriceUsd
      deps.debtPriceUsd deps.lltv deps.oracleLagSeconds)
      deps.lltv deps.collateralPriceUsd deps.debtPriceUsd).minHf ≤
    seriesMinHf (buildTimeSeries E
      (loopStateAt P inp deps c inp.loops).runningCollateral
      (loopStateAt P inp deps c inp.loops).runningDebt inp.horizonDays
      deps.supplyApr deps.borrowApr deps.collateralPriceUsd deps.debtPriceUsd
      deps.lltv deps.oracleLagSeconds)
  rw [evaluateSeries_minHf]
  exact foldmin_le_foldmin _ _ ⊤ ⊤ le_rfl
    (buildTimeSeriesAux_rates_shift_le E hmono hE0 hEpos _ _ _ _ _ _ _ _ _
      hRC hRD hcp hdp hlltv.le hshift (inp.horizonDays + 1) 0
      ⟨deps.collateralPriceUsd, 0⟩ rfl)

def wInp2 : SimInput := ⟨"WETH", "USDC", some 1, 1 / 2, 1, 1, [.ratesShift 100]⟩

theorem rates_shift_min_hf_le_base_witness :
    ((simRun wE wP wInp2 wDeps 1).stress.headD ⟨"", ⊤, false, none⟩).minHf ≤
      seriesMinHf (simRun wE wP wInp2 wDeps 1).time_series :=
  rates_shift_min_hf_le_base wE wP wInp2 wDeps (simRun wE wP wInp2 wDeps 1)
    1 100 0 ((simRun wE wP wInp2 wDeps 1).stress.headD ⟨"", ⊤, false, none⟩)
    (fun _ _ _ => le_refl 1) rfl (fun _ => zero_le_one) (fun _ _ => zero_le_one)
    (by norm_num [wDeps]) (by norm_num [wDeps]) (by norm_num [wInp2])
    (by norm_num [wDeps]) rfl (by norm_num) rfl rfl (by norm_num) rfl

/-! ### BigNumber non-finite semantics (src/core/looping.ts with bignumber.js)

The engine's loop has no guard on a zero divisor price: bignumber.js wraps
non-finite results instead of throwing.  `XNum` models BigNumber values
including the non-finite ones, with the library's semantics for the
operations the loop body uses: division of a non-zero finite value by zero
yields a signed Infinity, `0/0` yields NaN, `Infinity * 0` yields NaN,
`Infinity - Infinity` yields NaN, and NaN propagates through every
operation. -/

inductive XNum
  | fin (q : ℚ)
  | posInf
  | negInf
  | nan
deriving DecidableEq, Repr

def xplus : XNum → XNum → XNum
  | .nan, _ => .nan
  | _, .nan => .nan
  | .fin a, .fin b => .fin (a + b)
  | .fin _, .posInf => .posInf
  | .fin _, .negInf => .negInf
  | .posInf, .fin _ => .posInf
  | .negInf, .fin _ => .negInf
  | .posInf, .posInf => .posInf
  | .negInf, .negInf => .negInf
  | .posInf, .negInf => .nan
  | .negInf, .posInf => .nan

def xneg : XNum → XNum
  | .fin q => .fin (-q)
  | .posInf => .negInf
  | .negInf => .posInf
  | .nan => .nan

/-- BigNumber `minus` (agrees with `a + (-b)` on all extended values). -/
def xsub (a b : XNum) : XNum := xplus a (xneg b)

def xmul : XNum → XNum → XNum
  | .nan, _ => .nan
  | _, .nan => .nan
  | .fin a, .fin b => .fin (a * b)
  | .fin a, .posInf => if a = 0 then .nan else if 0 < a then .posInf else .negInf
  | .fin a, .negInf => if a = 0 then .nan else if 0 < a then .negInf else .posInf
  | .posInf, .fin b => if b = 0 then .nan else if 0 < b then .posInf else .negInf
  | .negInf, .fin b => if b = 0 then .nan else if 0 < b then .negInf else .posInf
  | .posInf, .posInf => .posInf
  | .posInf, .negInf => .negInf
  | .negInf, .posInf => .negInf
  | .negInf, .negInf => .posInf

def xdiv : XNum → XNum → XNum
  | .nan, _ => .nan
  | _, .nan => .nan
  | .fin a, .fin b =>
    if b = 0 then (if a = 0 then .nan else if 0 < a then .posInf else .negInf)
    else .fin (a / b)
  | .fin _, .posInf => .fin 0
  | .fin _, .negInf => .fin 0
  | .posInf, .fin b => if 0 ≤ b then .posInf else .negInf
  | .negInf, .fin b => if 0 ≤ b then .negInf else .posInf
  | .posInf, .posInf => .nan
  | .posInf, .negInf => .nan
  | .negInf, .posInf => .nan
  | .negInf, .negInf => .nan

/-- BigNumber `bigMax` helper (`isNegative() ? 0 : value`); `NaN.isNegative()`
is false in bignumber.js, so NaN passes through. -/
def xmax0 : XNum → XNum
  | .fin q => if q < 0 then .fin 0 else .fin q
  | .posInf => .posInf
  | .negInf => .fin 0
  | .nan => .nan

/-- Swap-provider call input over extended values. -/
structure XQuoteIn where
  amountInDebt : XNum
  idealAmountOutCollateral : XNum
  borrowValueUsd : XNum
deriving DecidableEq, Repr

/-- Swap-provider call output over extended values. -/
structure XQuoteOut where
  amountOutCollateral : XNum
  feesUsd : XNum
deriving DecidableEq, Repr

/-- The loop-local mutable values over extended values. -/
structure XLoopState where
  runningCollateral : XNum
  runningDebt : XNum
  collateralValueUsd : XNum
  debtValueUsd : XNum
  slippageCostUsd : XNum
deriving DecidableEq, Repr

/-- The same loop as `runLoops`, over BigNumber extended values: the source
has no error path here — `isZero()` on the borrow value is the only exit. -/
def runLoopsX (P : ℕ → XQuoteIn → XQuoteOut) (cp dp bf : XNum) :
    ℕ → ℕ → XLoopState → XLoopState
  | 0, _, st => st
  | fuel + 1, i, st =>
    let borrowValueUsd := xmul st.collateralValueUsd bf
    if borrowValueUsd = .fin 0 then st
    else
      let borrowAmountDebt := xdiv borrowValueUsd dp
      let idealOutCollateral := xdiv borrowValueUsd cp
      let q := P i ⟨borrowAmountDebt, idealOutCollateral, borrowValueUsd⟩
      let runningCollateral := xplus st.runningCollateral q.amountOutCollateral
      let runningDebt := xplus st.runningDebt borrowAmountDebt
      let slippageUsd := xmul (xmax0 (xsub idealOutCollateral q.amountOutCollateral)) cp
      runLoopsX P cp dp bf fuel (i + 1)
        ⟨runningCollateral, runningDebt, xmul runningCollateral cp,
          xmul runningDebt dp,
          xplus (xplus st.slippageCostUsd slippageUsd) q.feesUsd⟩

/-- A provider returning a zero quote (finite, non-negative). -/
def xP : ℕ → XQuoteIn → XQuoteOut := fun _ _ => ⟨.fin 0, .fin 0⟩

/-- C6 counterexample: one loop iteration with a zero debt USD price (start
capital 1, collateral price 2000, borrow fraction 1) does not fail — there is
no error path — and silently leaves `runningDebt = Infinity` and
`debtValueUsd = NaN` in the returned state. -/
theorem zero_price_divisor_returns_infinity :
    (runLoopsX xP (.fin 2000) (.fin 0) (.fin 1) 1 0
      ⟨.fin 1, .fin 0, .fin 2000, .fin 0, .fin 0⟩).runningDebt = XNum.posInf
    ∧ (runLoopsX xP (.fin 2000) (.fin 0) (.fin 1) 1 0
      ⟨.fin 1, .fin 0, .fin 2000, .fin 0, .fin 0⟩).debtValueUsd = XNum.nan := by
  norm_num [runLoopsX, xmul, xdiv, xplus, xsub, xneg, xmax0, xP]

/-- Invariant for the zero-debt-price run: positive finite collateral with
consistent USD value, and running debt already Infinity. -/
def XGood (cp : ℚ) (st : XLoopState) : Prop :=
  ∃ x : ℚ, 0 < x ∧ st.runningCollateral = .fin x
    ∧ st.collateralValueUsd = .fin (x * cp)
    ∧ st.runningDebt = .posInf

theorem runLoopsX_inf_propagates (P : ℕ → XQuoteIn → XQuoteOut) (cp bf : ℚ)
    (hcp : 0 < cp) (hbf : 0 < bf)
    (hP : ∀ i q, ∃ w, 0 ≤ w ∧ (P i q).amountOutCollateral = .fin w) :
    ∀ fuel i st, XGood cp st →
      (runLoopsX P (.fin cp) (.fin 0) (.fin bf) fuel i st).runningDebt =
        .posInf := by
  intro fuel
  induction fuel with
  | zero =>
    intro i st hst
    obtain ⟨x, hx, hrc, hcv, hrd⟩ := hst
    rw [runLoopsX]
    exact hrd
  | succ n ih =>
    intro i st hst
    obtain ⟨x, hx, hrc, hcv, hrd⟩ := hst
    have hbv : (0 : ℚ) < x * cp * bf := by positivity
    have hguard : ¬(xmul (XNum.fin (x * cp)) (XNum.fin bf) = XNum.fin 0) := by
      simp only [xmul, XNum.fin.injEq]
      exact ne_of_gt hbv
    have hbad : xdiv (xmul (XNum.fin (x * cp)) (XNum.fin bf)) (XNum.fin 0) =
        XNum.posInf := by
      simp only [xmul, xdiv, if_true]
      rw [if_neg (ne_of_gt hbv), if_pos hbv]
    simp only [runLoopsX, hcv, hrc, hrd]
    rw [if_neg hguard, hbad]
    obtain ⟨w, hw, hq⟩ := hP i ⟨XNum.posInf,
      xdiv (xmul (XNum.fin (x * cp)) (XNum.fin bf)) (XNum.fin cp),
      xmul (XNum.fin (x * cp)) (XNum.fin bf)⟩
    rw [hq]
    simp only [xplus, xmul]
    exact ih (i + 1) _ ⟨x + w, by linarith, rfl, rfl, rfl⟩

/-- C6 (amended): the engine's only thrown errors on this path are the AMM
quote guards; a zero debt USD price does not cause a failure: the loop has no
error path and BigNumber division by zero silently yields Infinity, so for
any positive start capital, collateral price and borrow fraction, any number
of iterations `≥ 1` returns a state with `runningDebt = Infinity` (and a NaN
debt USD value downstream); the health factor remains the sanctioned home of
`+∞` only for the zero-debt case. -/
theorem zero_debt_price_no_failure (P : ℕ → XQuoteIn → XQuoteOut)
    (cp bf c : ℚ) (hcp : 0 < cp) (hbf : 0 < bf) (hc : 0 < c)
    (hP : ∀ i q, ∃ w, 0 ≤ w ∧ (P i q).amountOutCollateral = .fin w)
    (fuel : ℕ) :
    (runLoopsX P (.fin cp) (.fin 0) (.fin bf) (fuel + 1) 0
      ⟨.fin c, .fin 0, .fin (c * cp), .fin 0, .fin 0⟩).runningDebt =
      XNum.posInf := by
  have hbv : (0 : ℚ) < c * cp * bf := by positivity
  have hguard : ¬(xmul (XNum.fin (c * cp)) (XNum.fin bf) = XNum.fin 0) := by
    simp only [xmul, XNum.fin.injEq]
    exact ne_of_gt hbv
  have hbad : xdiv (xmul (XNum.fin (c * cp)) (XNum.fin bf)) (XNum.fin 0) =
      XNum.posInf := by
    simp only [xmul, xdiv, if_true]
    rw [if_neg (ne_of_gt hbv), if_pos hbv]
  simp only [runLoopsX]
  rw [if_neg hguard, hbad]
  obtain ⟨w, hw, hq⟩ := hP 0 ⟨XNum.posInf,
    xdiv (xmul (XNum.fin (c * cp)) (XNum.fin bf)) (XNum.fin cp),
    xmul (XNum.fin (c * cp)) (XNum.fin bf)⟩
  rw [hq]
  simp only [xplus, xmul]
  exact runLoopsX_inf_propagates P cp bf hcp hbf hP fuel 1 _
    ⟨c + w, by linarith, rfl, rfl, rfl⟩

theorem zero_debt_price_no_failure_witness :
    (runLoopsX xP (.fin 2000) (.fin 0) (.fin 1) 1 0
      ⟨.fin 1, .fin 0, .fin (1 * 2000), .fin 0, .fin 0⟩).runningDebt =
      XNum.posInf :=
  zero_debt_price_no_failure xP 2000 1 1 (by norm_num) (by norm_num)
    (by norm_num) (fun _ _ => ⟨0, le_refl 0, rfl⟩) 0
